import Mathlib

/-!
Shallow embedding of the `memory-cache-rs` crate (src/entry.rs, src/lib.rs).

Time is modelled by `Nat`: a `SystemTime` is a natural number of ticks, a
`Duration` is a natural number of ticks.  `SystemTime::duration_since`
returns a `Result`, modelled by `Option Nat` (`none` is `Err`); `.unwrap()`
on an `Err` panics, so every operation that can reach that `unwrap` returns
`Option`, with `none` modelling the panic.

`HashMap<A, CacheEntry<B>>` is modelled by an association list with unique
keys (`MemoryCache.WF`); `HashMap::insert`, `remove`, `get`, `retain` and
the `Entry` API are modelled by the corresponding first-occurrence
operations on the list.  The source reads `SystemTime::now()` once per
public operation (and once more inside `CacheEntry::new`); the embedding
passes that single instant explicitly as a `now : Nat` argument.
-/

namespace MemCacheModel

/-- Model of `CacheEntry<B>` from src/entry.rs: a stored value together with an
optional absolute expiration instant (`none` = kept forever). -/
structure CacheEntry (B : Type) where
  value : B
  expiration : Option Nat
  deriving Repr, DecidableEq

/-- Model of `CacheEntry::new(value, duration)`: expiration is `now + d` when a
duration is given, where `now` is the clock reading at construction. -/
def CacheEntry.new {B : Type} (value : B) (duration : Option Nat) (now : Nat) : CacheEntry B :=
  { value := value, expiration := duration.map (fun d => now + d) }

/-- Model of `CacheEntry::is_expired(current_time)`: true iff there is an expiration
instant `time` and `current_time >= time`. -/
def CacheEntry.is_expired {B : Type} (e : CacheEntry B) (current_time : Nat) : Bool :=
  match e.expiration with
  | some time => decide (time ≤ current_time)
  | none => false

/-- Association-list model of `HashMap::get`. -/
def tableLookup {A B : Type} [DecidableEq A] (key : A) :
    List (A × CacheEntry B) → Option (CacheEntry B)
  | [] => none
  | (k, e) :: rest => if k = key then some e else tableLookup key rest

/-- Association-list model of `HashMap::insert`: returns the previous
entry for the key (if any) and the table with the key now bound to `entry`. -/
def tableInsert {A B : Type} [DecidableEq A] (key : A) (entry : CacheEntry B) :
    List (A × CacheEntry B) → Option (CacheEntry B) × List (A × CacheEntry B)
  | [] => (none, [(key, entry)])
  | (k, e) :: rest =>
    if k = key then (some e, (key, entry) :: rest)
    else
      let r := tableInsert key entry rest
      (r.1, (k, e) :: r.2)

/-- Association-list model of `HashMap::remove`: returns the removed entry
(if any) and the table without the key. -/
def tableRemove {A B : Type} [DecidableEq A] (key : A) :
    List (A × CacheEntry B) → Option (CacheEntry B) × List (A × CacheEntry B)
  | [] => (none, [])
  | (k, e) :: rest =>
    if k = key then (some e, rest)
    else
      let r := tableRemove key rest
      (r.1, (k, e) :: r.2)

/-- Model of `MemoryCache<A, B>` from src/lib.rs. -/
structure MemoryCache (A B : Type) where
  cache_table : List (A × CacheEntry B)
  full_scan_frequency : Option Nat
  created_time : Nat
  last_scan_time : Option Nat
  deriving Repr, DecidableEq

/-- Representation invariant of the `HashMap`: keys are unique. -/
def MemoryCache.WF {A B : Type} (c : MemoryCache A B) : Prop :=
  (c.cache_table.map Prod.fst).Nodup

instance {A B : Type} [DecidableEq A] (c : MemoryCache A B) : Decidable c.WF := by
  unfold MemoryCache.WF; infer_instance

/-- Model of `MemoryCache::new()` at creation instant `now`. -/
def MemoryCache.new (A B : Type) (now : Nat) : MemoryCache A B :=
  { cache_table := [], full_scan_frequency := none, created_time := now,
    last_scan_time := none }

/-- Model of `MemoryCache::with_full_scan(frequency)` at creation instant `now`. -/
def MemoryCache.with_full_scan (A B : Type) (full_scan_frequency : Nat) (now : Nat) :
    MemoryCache A B :=
  { cache_table := [], full_scan_frequency := some full_scan_frequency,
    created_time := now, last_scan_time := none }

/-- Model of `SystemTime::duration_since`: `Ok(current - earlier)` when
`earlier <= current`, `Err` (here `none`) otherwise. -/
def durationSince (current earlier : Nat) : Option Nat :=
  if earlier ≤ current then some (current - earlier) else none

/-- Model of `MemoryCache::try_full_scan_expired_items(current_time)`.  The source
calls `duration_since(..).unwrap()`, which panics when the reference point
lies in the future; `none` models that panic. -/
def MemoryCache.try_full_scan_expired_items {A B : Type} (c : MemoryCache A B)
    (current_time : Nat) : Option (MemoryCache A B) :=
  match c.full_scan_frequency with
  | none => some c
  | some full_scan_frequency =>
    match durationSince current_time (c.last_scan_time.getD c.created_time) with
    | none => none
    | some since =>
      if full_scan_frequency ≤ since then
        some { c with
          cache_table := c.cache_table.filter (fun p => !(p.2.is_expired current_time)),
          last_scan_time := some current_time }
      else
        some c

/-- Model of `MemoryCache::contains_key(key)` observed at instant `now`. -/
def MemoryCache.contains_key {A B : Type} [DecidableEq A] (c : MemoryCache A B)
    (key : A) (now : Nat) : Bool :=
  ((tableLookup key c.cache_table).filter (fun e => !(e.is_expired now))).isSome

/-- Model of `MemoryCache::get(key)` observed at instant `now`. -/
def MemoryCache.get {A B : Type} [DecidableEq A] (c : MemoryCache A B)
    (key : A) (now : Nat) : Option B :=
  ((tableLookup key c.cache_table).filter (fun e => !(e.is_expired now))).map
    (fun e => e.value)

/-- Model of `MemoryCache::get_last_scan_time()`. -/
def MemoryCache.get_last_scan_time {A B : Type} (c : MemoryCache A B) : Option Nat :=
  c.last_scan_time

/-- Model of `MemoryCache::get_full_scan_frequency()`. -/
def MemoryCache.get_full_scan_frequency {A B : Type} (c : MemoryCache A B) : Option Nat :=
  c.full_scan_frequency

/-- Model of `MemoryCache::get_or_insert(key, factory, lifetime)` at instant `now`.
Returns the produced value, the new cache state, and the number of times
`factory` was invoked; `none` models the panic inside the sweep. -/
def MemoryCache.get_or_insert {A B : Type} [DecidableEq A] (c : MemoryCache A B)
    (key : A) (factory : Unit → B) (lifetime : Option Nat) (now : Nat) :
    Option (B × MemoryCache A B × Nat) :=
  match c.try_full_scan_expired_items now with
  | none => none
  | some c1 =>
    match tableLookup key c1.cache_table with
    | some occupied =>
      if occupied.is_expired now then
        let e := CacheEntry.new (factory ()) lifetime now
        some (e.value, { c1 with cache_table := (tableInsert key e c1.cache_table).2 }, 1)
      else
        some (occupied.value, c1, 0)
    | none =>
      let e := CacheEntry.new (factory ()) lifetime now
      some (e.value, { c1 with cache_table := (tableInsert key e c1.cache_table).2 }, 1)

/-- Model of `MemoryCache::insert(key, value, lifetime)` at instant `now`.  Returns
the previous live value (if any) and the new cache state; `none` models the
panic inside the sweep. -/
def MemoryCache.insert {A B : Type} [DecidableEq A] (c : MemoryCache A B)
    (key : A) (value : B) (lifetime : Option Nat) (now : Nat) :
    Option (Option B × MemoryCache A B) :=
  match c.try_full_scan_expired_items now with
  | none => none
  | some c1 =>
    let r := tableInsert key (CacheEntry.new value lifetime now) c1.cache_table
    some ((r.1.filter (fun e => !(e.is_expired now))).map (fun e => e.value),
      { c1 with cache_table := r.2 })

/-- Model of `MemoryCache::remove(key)` at instant `now`.  Returns the removed live
value (if any) and the new cache state; `none` models the panic inside the
sweep. -/
def MemoryCache.remove {A B : Type} [DecidableEq A] (c : MemoryCache A B)
    (key : A) (now : Nat) : Option (Option B × MemoryCache A B) :=
  match c.try_full_scan_expired_items now with
  | none => none
  | some c1 =>
    let r := tableRemove key c1.cache_table
    some ((r.1.filter (fun e => !(e.is_expired now))).map (fun e => e.value),
      { c1 with cache_table := r.2 })

/-- The throttled sweep as the specification words it (§4.2): if no scan
frequency is configured do nothing; otherwise compute the elapsed time
since `last_scan_time` (or `created_time` if no sweep has run); if elapsed
is at least the frequency, remove every entry whose `is_expired(now)` is
true and set `last_scan_time` to `now`; otherwise change nothing.  Written
from the spec's words, for comparison with the source-derived
`try_full_scan_expired_items`. -/
def sweepSpec {A B : Type} (c : MemoryCache A B) (now : Nat) : MemoryCache A B :=
  match c.full_scan_frequency with
  | none => c
  | some frequency =>
    let reference := c.last_scan_time.getD c.created_time
    let elapsed := now - reference
    if frequency ≤ elapsed then
      { c with
        cache_table := c.cache_table.filter (fun p => !(p.2.is_expired now)),
        last_scan_time := some now }
    else c

/-- The public operations, as an explicit alphabet for reasoning about
sequences of calls. -/
inductive Op (A B : Type) where
  | insertOp (key : A) (value : B) (lifetime : Option Nat)
  | removeOp (key : A)
  | getOrInsertOp (key : A) (factory : Unit → B) (lifetime : Option Nat)
  | containsKeyOp (key : A)
  | getOp (key : A)

/-- The cache state after one public call at instant `now` (`none` models a
panic).  `contains_key` and `get` take `&self` in the source, so the state
they return is the input state itself. -/
def step {A B : Type} [DecidableEq A] (c : MemoryCache A B) :
    Op A B → Nat → Option (MemoryCache A B)
  | Op.insertOp k v l, now => (c.insert k v l now).map (fun r => r.2)
  | Op.removeOp k, now => (c.remove k now).map (fun r => r.2)
  | Op.getOrInsertOp k f l, now => (c.get_or_insert k f l now).map (fun r => r.2.1)
  | Op.containsKeyOp _, _ => some c
  | Op.getOp _, _ => some c

/-- A sequence of timed public calls. -/
def run {A B : Type} [DecidableEq A] (c : MemoryCache A B) :
    List (Op A B × Nat) → Option (MemoryCache A B)
  | [] => some c
  | opn :: rest =>
    match step c opn.1 opn.2 with
    | none => none
    | some c2 => run c2 rest

/-! ### Lemmas about the association-list table -/

theorem tableInsert_fst {A B : Type} [DecidableEq A] (key : A) (e : CacheEntry B)
    (l : List (A × CacheEntry B)) : (tableInsert key e l).1 = tableLookup key l := by
  induction l with
  | nil => rfl
  | cons p rest ih =>
    obtain ⟨k, e'⟩ := p
    by_cases h : k = key <;> simp [tableInsert, tableLookup, h, ih]

theorem tableLookup_tableInsert_self {A B : Type} [DecidableEq A] (key : A) (e : CacheEntry B)
    (l : List (A × CacheEntry B)) : tableLookup key (tableInsert key e l).2 = some e := by
  induction l with
  | nil => simp [tableInsert, tableLookup]
  | cons p rest ih =>
    obtain ⟨k, e'⟩ := p
    by_cases h : k = key <;> simp [tableInsert, tableLookup, h, ih]

theorem tableRemove_fst {A B : Type} [DecidableEq A] (key : A)
    (l : List (A × CacheEntry B)) : (tableRemove key l).1 = tableLookup key l := by
  induction l with
  | nil => rfl
  | cons p rest ih =>
    obtain ⟨k, e'⟩ := p
    by_cases h : k = key <;> simp [tableRemove, tableLookup, h, ih]

theorem tableLookup_eq_none {A B : Type} [DecidableEq A] (key : A)
    (l : List (A × CacheEntry B)) (h : key ∉ l.map Prod.fst) : tableLookup key l = none := by
  induction l with
  | nil => rfl
  | cons p rest ih =>
    obtain ⟨k, e⟩ := p
    simp only [List.map_cons, List.mem_cons] at h
    push_neg at h
    have hk : k ≠ key := fun hk => h.1 hk.symm
    simp [tableLookup, hk, ih h.2]

theorem tableLookup_tableRemove_self {A B : Type} [DecidableEq A] (key : A)
    (l : List (A × CacheEntry B)) (hnd : (l.map Prod.fst).Nodup) :
    tableLookup key (tableRemove key l).2 = none := by
  induction l with
  | nil => rfl
  | cons p rest ih =>
    obtain ⟨k, e⟩ := p
    rw [List.map_cons, List.nodup_cons] at hnd
    by_cases h : k = key
    · subst h
      simp only [tableRemove, if_pos rfl]
      exact tableLookup_eq_none k rest hnd.1
    · simp [tableRemove, tableLookup, h, ih hnd.2]

theorem tableLookup_filter {A B : Type} [DecidableEq A] (key : A) (q : CacheEntry B → Bool)
    (l : List (A × CacheEntry B)) (hnd : (l.map Prod.fst).Nodup) :
    tableLookup key (l.filter (fun p => q p.2)) = (tableLookup key l).filter q := by
  induction l with
  | nil => rfl
  | cons p rest ih =>
    obtain ⟨k, e⟩ := p
    rw [List.map_cons, List.nodup_cons] at hnd
    by_cases h : k = key
    · subst h
      have h1 : tableLookup k (List.filter (fun p => q p.2) rest) = none := by
        apply tableLookup_eq_none
        intro hmem
        apply hnd.1
        rcases List.mem_map.mp hmem with ⟨pp, hpp, hfst⟩
        exact hfst ▸ List.mem_map.mpr ⟨pp, (List.mem_filter.mp hpp).1, rfl⟩
      cases hq : q e <;>
        simp [List.filter_cons, hq, tableLookup, Option.filter, h1]
    · cases hq : q e <;>
        simp [List.filter_cons, hq, tableLookup, h, ih hnd.2]

theorem nodupKeys_filter {A B : Type} (l : List (A × CacheEntry B))
    (q : A × CacheEntry B → Bool) (hnd : (l.map Prod.fst).Nodup) :
    ((l.filter q).map Prod.fst).Nodup :=
  ((List.filter_sublist l).map Prod.fst).nodup hnd

/-! ### Lemmas about the throttled sweep -/

theorem scan_cases {A B : Type} (c : MemoryCache A B) (now : Nat) (c1 : MemoryCache A B)
    (h : c.try_full_scan_expired_items now = some c1) :
    c1 = c ∨
    (c1.cache_table = c.cache_table.filter (fun p => !(p.2.is_expired now)) ∧
     c1.full_scan_frequency = c.full_scan_frequency ∧
     c1.created_time = c.created_time ∧
     c1.last_scan_time = some now ∧
     c.last_scan_time.getD c.created_time ≤ now) := by
  cases hf : c.full_scan_frequency with
  | none =>
    simp only [MemoryCache.try_full_scan_expired_items, hf, Option.some_inj] at h
    left
    exact h.symm
  | some freq =>
    by_cases hle : c.last_scan_time.getD c.created_time ≤ now
    · by_cases hge : freq ≤ now - c.last_scan_time.getD c.created_time
      · simp only [MemoryCache.try_full_scan_expired_items, durationSince, hf,
          if_pos hle, if_pos hge, Option.some_inj] at h
        right
        refine ⟨?_, ?_, ?_, ?_, hle⟩ <;> rw [← h]
      · simp only [MemoryCache.try_full_scan_expired_items, durationSince, hf,
          if_pos hle, if_neg hge, Option.some_inj] at h
        left
        exact h.symm
    · simp only [MemoryCache.try_full_scan_expired_items, durationSince, hf,
        if_neg hle] at h
      exact absurd h (by simp)

theorem scan_WF {A B : Type} (c : MemoryCache A B) (now : Nat) (c1 : MemoryCache A B)
    (hwf : c.WF) (h : c.try_full_scan_expired_items now = some c1) : c1.WF := by
  rcases scan_cases c now c1 h with rfl | ⟨ht, _⟩
  · exact hwf
  · unfold MemoryCache.WF
    rw [ht]
    exact nodupKeys_filter _ _ hwf

theorem scan_lookup {A B : Type} [DecidableEq A] (c : MemoryCache A B) (now : Nat)
    (c1 : MemoryCache A B) (hwf : c.WF) (h : c.try_full_scan_expired_items now = some c1)
    (key : A) :
    tableLookup key c1.cache_table = tableLookup key c.cache_table ∨
    tableLookup key c1.cache_table =
      (tableLookup key c.cache_table).filter (fun e => !(e.is_expired now)) := by
  rcases scan_cases c now c1 h with rfl | ⟨ht, _⟩
  · left; rfl
  · right
    rw [ht]
    exact tableLookup_filter key (fun e => !(e.is_expired now)) c.cache_table hwf

theorem scan_lookup_live {A B : Type} [DecidableEq A] (c : MemoryCache A B) (now : Nat)
    (c1 : MemoryCache A B) (hwf : c.WF) (h : c.try_full_scan_expired_items now = some c1)
    (key : A) :
    (tableLookup key c1.cache_table).filter (fun e => !(e.is_expired now)) =
    (tableLookup key c.cache_table).filter (fun e => !(e.is_expired now)) := by
  rcases scan_lookup c now c1 hwf h key with heq | heq
  · rw [heq]
  · rw [heq]
    cases tableLookup key c.cache_table with
    | none => rfl
    | some e => cases he : e.is_expired now <;> simp [Option.filter, he]

/-- When the sweep is due, `try_full_scan_expired_items` purges the expired
entries and stamps `last_scan_time`. -/
theorem scan_due {A B : Type} (c : MemoryCache A B) (now freq : Nat)
    (hf : c.full_scan_frequency = some freq)
    (hle : c.last_scan_time.getD c.created_time ≤ now)
    (hge : freq ≤ now - c.last_scan_time.getD c.created_time) :
    c.try_full_scan_expired_items now = some
      { c with
        cache_table := c.cache_table.filter (fun p => !(p.2.is_expired now)),
        last_scan_time := some now } := by
  simp only [MemoryCache.try_full_scan_expired_items, durationSince, hf,
    if_pos hle, if_pos hge]

/-- Every mutating operation routes through the sweep: the resulting state
keeps the bookkeeping fields of the post-sweep state. -/
theorem step_mutator_scan {A B : Type} [DecidableEq A] (c : MemoryCache A B)
    (op : Op A B) (now : Nat) (c' : MemoryCache A B)
    (hm : (∃ k v l, op = Op.insertOp k v l) ∨ (∃ k, op = Op.removeOp k) ∨
      (∃ k f l, op = Op.getOrInsertOp k f l))
    (h : step c op now = some c') :
    ∃ c1, c.try_full_scan_expired_items now = some c1 ∧
      c'.last_scan_time = c1.last_scan_time ∧
      c'.full_scan_frequency = c1.full_scan_frequency ∧
      c'.created_time = c1.created_time := by
  rcases hm with ⟨k, v, l, rfl⟩ | ⟨k, rfl⟩ | ⟨k, f, l, rfl⟩
  · cases hs : c.try_full_scan_expired_items now with
    | none => simp [step, MemoryCache.insert, hs] at h
    | some c1 =>
      simp only [step, MemoryCache.insert, hs, Option.map_some', Option.some_inj] at h
      exact ⟨c1, rfl, by rw [← h]; exact ⟨rfl, rfl, rfl⟩⟩
  · cases hs : c.try_full_scan_expired_items now with
    | none => simp [step, MemoryCache.remove, hs] at h
    | some c1 =>
      simp only [step, MemoryCache.remove, hs, Option.map_some', Option.some_inj] at h
      exact ⟨c1, rfl, by rw [← h]; exact ⟨rfl, rfl, rfl⟩⟩
  · cases hs : c.try_full_scan_expired_items now with
    | none => simp [step, MemoryCache.get_or_insert, hs] at h
    | some c1 =>
      simp only [step, MemoryCache.get_or_insert, hs] at h
      cases hl : tableLookup k c1.cache_table with
      | none =>
        simp only [hl, Option.map_some', Option.some_inj] at h
        exact ⟨c1, rfl, by rw [← h]; exact ⟨rfl, rfl, rfl⟩⟩
      | some occupied =>
        by_cases he : occupied.is_expired now = true
        · simp only [hl, if_pos he, Option.map_some', Option.some_inj] at h
          exact ⟨c1, rfl, by rw [← h]; exact ⟨rfl, rfl, rfl⟩⟩
        · simp only [hl, if_neg he, Option.map_some', Option.some_inj] at h
          exact ⟨c1, rfl, by rw [← h]; exact ⟨rfl, rfl, rfl⟩⟩

/-- One step can only leave `last_scan_time` alone or stamp it with `now`,
and in the latter case the reference point was not in the future. -/
theorem step_last_scan {A B : Type} [DecidableEq A] (c : MemoryCache A B)
    (op : Op A B) (now : Nat) (c' : MemoryCache A B) (h : step c op now = some c') :
    c'.last_scan_time = c.last_scan_time ∨
    (c'.last_scan_time = some now ∧ c.last_scan_time.getD c.created_time ≤ now) := by
  cases op with
  | containsKeyOp k =>
    simp only [step, Option.some_inj] at h
    left; rw [← h]
  | getOp k =>
    simp only [step, Option.some_inj] at h
    left; rw [← h]
  | insertOp k v l =>
    obtain ⟨c1, hs, hlast, _⟩ :=
      step_mutator_scan c (Op.insertOp k v l) now c' (Or.inl ⟨k, v, l, rfl⟩) h
    rcases scan_cases c now c1 hs with rfl | ⟨_, _, _, hstamp, hle⟩
    · left; exact hlast
    · right; exact ⟨hlast.trans hstamp, hle⟩
  | removeOp k =>
    obtain ⟨c1, hs, hlast, _⟩ :=
      step_mutator_scan c (Op.removeOp k) now c' (Or.inr (Or.inl ⟨k, rfl⟩)) h
    rcases scan_cases c now c1 hs with rfl | ⟨_, _, _, hstamp, hle⟩
    · left; exact hlast
    · right; exact ⟨hlast.trans hstamp, hle⟩
  | getOrInsertOp k f l =>
    obtain ⟨c1, hs, hlast, _⟩ :=
      step_mutator_scan c (Op.getOrInsertOp k f l) now c' (Or.inr (Or.inr ⟨k, f, l, rfl⟩)) h
    rcases scan_cases c now c1 hs with rfl | ⟨_, _, _, hstamp, hle⟩
    · left; exact hlast
    · right; exact ⟨hlast.trans hstamp, hle⟩

/-- Along a non-panicking run, `last_scan_time`, once set, never decreases. -/
theorem run_last_scan_mono {A B : Type} [DecidableEq A]
    (ops : List (Op A B × Nat)) (c c' : MemoryCache A B) (h : run c ops = some c')
    (t : Nat) (ht : c.last_scan_time = some t) :
    ∃ t', c'.last_scan_time = some t' ∧ t ≤ t' := by
  induction ops generalizing c t with
  | nil =>
    simp only [run, Option.some_inj] at h
    exact ⟨t, by rw [← h]; exact ht, le_refl t⟩
  | cons opn rest ih =>
    simp only [run] at h
    cases hs : step c opn.1 opn.2 with
    | none => rw [hs] at h; exact absurd h (by simp)
    | some c2 =>
      rw [hs] at h
      rcases step_last_scan c opn.1 opn.2 c2 hs with heq | ⟨hstamp, hle⟩
      · exact ih c2 h t (heq.trans ht)
      · rw [ht] at hle
        obtain ⟨t', ht', hle'⟩ := ih c2 h opn.2 hstamp
        exact ⟨t', ht', le_trans hle hle'⟩

/-- Full characterisation of a non-panicking `insert`. -/
theorem insert_result {A B : Type} [DecidableEq A] (c : MemoryCache A B) (key : A) (v : B)
    (l : Option Nat) (now : Nat) (ret : Option B) (c' : MemoryCache A B)
    (h : c.insert key v l now = some (ret, c')) :
    ∃ c1, c.try_full_scan_expired_items now = some c1 ∧
      ret = ((tableLookup key c1.cache_table).filter
        (fun e => !(e.is_expired now))).map (fun e => e.value) ∧
      c'.cache_table = (tableInsert key (CacheEntry.new v l now) c1.cache_table).2 ∧
      c'.full_scan_frequency = c1.full_scan_frequency ∧
      c'.created_time = c1.created_time ∧
      c'.last_scan_time = c1.last_scan_time := by
  cases hs : c.try_full_scan_expired_items now with
  | none => simp [MemoryCache.insert, hs] at h
  | some c1 =>
    simp only [MemoryCache.insert, hs, Option.some_inj, Prod.mk.injEq] at h
    obtain ⟨h1, h2⟩ := h
    refine ⟨c1, rfl, ?_, ?_, ?_, ?_, ?_⟩
    · rw [← h1, tableInsert_fst]
    · rw [← h2]
    · rw [← h2]
    · rw [← h2]
    · rw [← h2]

/-- Full characterisation of a non-panicking `remove`. -/
theorem remove_result {A B : Type} [DecidableEq A] (c : MemoryCache A B) (key : A)
    (now : Nat) (ret : Option B) (c' : MemoryCache A B)
    (h : c.remove key now = some (ret, c')) :
    ∃ c1, c.try_full_scan_expired_items now = some c1 ∧
      ret = ((tableLookup key c1.cache_table).filter
        (fun e => !(e.is_expired now))).map (fun e => e.value) ∧
      c'.cache_table = (tableRemove key c1.cache_table).2 ∧
      c'.full_scan_frequency = c1.full_scan_frequency ∧
      c'.created_time = c1.created_time ∧
      c'.last_scan_time = c1.last_scan_time := by
  cases hs : c.try_full_scan_expired_items now with
  | none => simp [MemoryCache.remove, hs] at h
  | some c1 =>
    simp only [MemoryCache.remove, hs, Option.some_inj, Prod.mk.injEq] at h
    obtain ⟨h1, h2⟩ := h
    refine ⟨c1, rfl, ?_, ?_, ?_, ?_, ?_⟩
    · rw [← h1, tableRemove_fst]
    · rw [← h2]
    · rw [← h2]
    · rw [← h2]
    · rw [← h2]

/-- The live-entry filter used by `insert`/`remove` return values and the
read operations, characterised. -/
theorem live_filter_map_eq_some {B : Type} (o : Option (CacheEntry B)) (now : Nat) (b : B) :
    ((o.filter (fun e => !(e.is_expired now))).map (fun e => e.value) = some b) ↔
    (∃ e, o = some e ∧ e.is_expired now = false ∧ e.value = b) := by
  cases o with
  | none => simp [Option.filter]
  | some e =>
    cases he : e.is_expired now
    · simp only [Option.filter, he, Bool.not_false, if_true, Option.map_some',
        Option.some_inj, Option.some.injEq]
      constructor
      · intro hb
        exact ⟨e, rfl, he, hb⟩
      · rintro ⟨e1, he1, _, hval⟩
        exact he1.symm ▸ hval
    · simp only [Option.filter, he, Bool.not_true, if_false, Option.map_none']
      constructor
      · intro hb
        exact absurd hb (by simp)
      · rintro ⟨e1, he1, hlive1, _⟩
        rw [← Option.some_inj.mp he1] at hlive1
        rw [he] at hlive1
        exact absurd hlive1 (by simp)

/-! ### Claims -/

/-- C1: the claim says a clock reading earlier than the reference point must
not panic and must leave the cache unchanged with no sweep.  The source
instead computes `current_time.duration_since(reference).unwrap()`, which
panics (`none` in this model): at a cache created at instant 5 with scan
frequency 10, calling the sweep — or `insert`, which routes through it — at
instant 3 panics instead of being treated as zero elapsed time. -/
theorem claim_C1_backward_clock_panics :
    (MemoryCache.mk ([] : List (Nat × CacheEntry Nat)) (some 10) 5
      none).try_full_scan_expired_items 3 = none ∧
    (MemoryCache.mk ([] : List (Nat × CacheEntry Nat)) (some 10) 5
      none).insert 1 2 none 3 = none := by
  constructor <;> rfl

/-- C2: a non-panicking `insert key v l` at instant `now` installs the fresh
entry under `key`; it returns `some b` exactly when the pre-state held an
entry for `key` that was not expired at `now` and whose value is `b`; in
particular an expired prior occupant yields `none`. -/
theorem claim_C2_insert_semantics {A B : Type} [DecidableEq A] (c : MemoryCache A B)
    (key : A) (v : B) (l : Option Nat) (now : Nat) (ret : Option B) (c' : MemoryCache A B)
    (hwf : c.WF) (h : c.insert key v l now = some (ret, c')) :
    tableLookup key c'.cache_table = some (CacheEntry.new v l now) ∧
    (∀ b, ret = some b ↔
      ∃ e, tableLookup key c.cache_table = some e ∧ e.is_expired now = false ∧
        e.value = b) ∧
    (∀ e, tableLookup key c.cache_table = some e → e.is_expired now = true →
      ret = none) := by
  obtain ⟨c1, hs, h1, h2, _⟩ := insert_result c key v l now ret c' h
  have hlive := scan_lookup_live c now c1 hwf hs key
  refine ⟨?_, ?_, ?_⟩
  · rw [h2]
    exact tableLookup_tableInsert_self key _ _
  · intro b
    rw [h1, hlive]
    exact live_filter_map_eq_some (tableLookup key c.cache_table) now b
  · intro e hle hexp
    rw [h1, hlive, hle]
    simp [Option.filter, hexp]

theorem claim_C2_witness :
    (MemoryCache.mk [(1, CacheEntry.mk 10 (some 5))] none 0 none :
      MemoryCache Nat Nat).WF ∧
    (MemoryCache.mk [(1, CacheEntry.mk 10 (some 5))] none 0 none :
      MemoryCache Nat Nat).insert 1 99 none 3 =
      some (some 10, MemoryCache.mk [(1, CacheEntry.mk 99 none)] none 0 none) ∧
    (tableLookup 1 (MemoryCache.mk [(1, CacheEntry.mk 99 none)] none 0 none :
        MemoryCache Nat Nat).cache_table = some (CacheEntry.new 99 none 3) ∧
      (∀ b, (some 10 : Option Nat) = some b ↔
        ∃ e, tableLookup 1 (MemoryCache.mk [(1, CacheEntry.mk 10 (some 5))] none 0 none :
          MemoryCache Nat Nat).cache_table = some e ∧ e.is_expired 3 = false ∧
          e.value = b) ∧
      (∀ e, tableLookup 1 (MemoryCache.mk [(1, CacheEntry.mk 10 (some 5))] none 0 none :
          MemoryCache Nat Nat).cache_table = some e → e.is_expired 3 = true →
        (some 10 : Option Nat) = none)) :=
  ⟨by decide, by decide,
    claim_C2_insert_semantics _ 1 99 none 3 (some 10) _ (by decide) (by decide)⟩

/-- C5: `is_expired t` is true exactly when the entry carries an expiration
instant that is at most `t` (expiry exactly at the boundary, via `>=`); an
entry without expiration is never expired; and a key inserted with a
zero ttl is already expired, so `contains_key` and `get` report it absent
from the insertion instant on. -/
theorem claim_C5_expiry_boundary {A B : Type} [DecidableEq A] :
    (∀ (e : CacheEntry B) (t : Nat),
      e.is_expired t = true ↔ ∃ exp, e.expiration = some exp ∧ exp ≤ t) ∧
    (∀ (e : CacheEntry B) (t : Nat), e.expiration = none → e.is_expired t = false) ∧
    (∀ (c : MemoryCache A B) (key : A) (v : B) (now : Nat) (ret : Option B)
      (c' : MemoryCache A B), c.insert key v (some 0) now = some (ret, c') →
      ∀ t, now ≤ t → c'.contains_key key t = false ∧ c'.get key t = none) := by
  refine ⟨?_, ?_, ?_⟩
  · intro e t
    cases he : e.expiration with
    | none => simp [CacheEntry.is_expired, he]
    | some exp => simp [CacheEntry.is_expired, he]
  · intro e t he
    simp [CacheEntry.is_expired, he]
  · intro c key v now ret c' h t hle
    obtain ⟨c1, hs, h1, h2, _⟩ := insert_result c key v (some 0) now ret c' h
    have hl : tableLookup key c'.cache_table = some (CacheEntry.new v (some 0) now) := by
      rw [h2]
      exact tableLookup_tableInsert_self key _ _
    have hexp : (CacheEntry.new v (some 0) now).is_expired t = true := by
      simp [CacheEntry.new, CacheEntry.is_expired]
      exact hle
    constructor
    · simp [MemoryCache.contains_key, hl, Option.filter, hexp]
    · simp [MemoryCache.get, hl, Option.filter, hexp]

theorem claim_C5_witness :
    ((CacheEntry.mk 7 (some 4) : CacheEntry Nat).is_expired 4 = true ↔
      ∃ exp, (CacheEntry.mk 7 (some 4) : CacheEntry Nat).expiration = some exp ∧
        exp ≤ 4) ∧
    ((CacheEntry.mk 7 none : CacheEntry Nat).expiration = none ∧
      (CacheEntry.mk 7 none : CacheEntry Nat).is_expired 1000 = false) ∧
    ((MemoryCache.mk ([] : List (Nat × CacheEntry Nat)) none 0 none :
        MemoryCache Nat Nat).insert 1 7 (some 0) 2 =
      some (none, MemoryCache.mk [(1, CacheEntry.mk 7 (some 2))] none 0 none) ∧
      (2 : Nat) ≤ 2 ∧
      (MemoryCache.mk [(1, CacheEntry.mk 7 (some 2))] none 0 none :
        MemoryCache Nat Nat).contains_key 1 2 = false ∧
      (MemoryCache.mk [(1, CacheEntry.mk 7 (some 2))] none 0 none :
        MemoryCache Nat Nat).get 1 2 = none) :=
  ⟨(@claim_C5_expiry_boundary Nat Nat _).1 (CacheEntry.mk 7 (some 4)) 4,
    ⟨rfl, (@claim_C5_expiry_boundary Nat Nat _).2.1 (CacheEntry.mk 7 none) 1000 rfl⟩,
    ⟨by decide, by decide,
      (@claim_C5_expiry_boundary Nat Nat _).2.2
        (MemoryCache.mk ([] : List (Nat × CacheEntry Nat)) none 0 none) 1 7 2 none
        (MemoryCache.mk [(1, CacheEntry.mk 7 (some 2))] none 0 none)
        (by decide) 2 (by decide)⟩⟩

/-- C6: a non-panicking `remove key` at instant `now` leaves the key absent
afterwards; it returns `some b` exactly when the pre-state held an entry for
`key` that was not expired at `now` and whose value is `b`; an expired prior
occupant yields `none` even though the key was present. -/
theorem claim_C6_remove_semantics {A B : Type} [DecidableEq A] (c : MemoryCache A B)
    (key : A) (now : Nat) (ret : Option B) (c' : MemoryCache A B)
    (hwf : c.WF) (h : c.remove key now = some (ret, c')) :
    tableLookup key c'.cache_table = none ∧
    (∀ b, ret = some b ↔
      ∃ e, tableLookup key c.cache_table = some e ∧ e.is_expired now = false ∧
        e.value = b) ∧
    (∀ e, tableLookup key c.cache_table = some e → e.is_expired now = true →
      ret = none) := by
  obtain ⟨c1, hs, h1, h2, _⟩ := remove_result c key now ret c' h
  have hlive := scan_lookup_live c now c1 hwf hs key
  refine ⟨?_, ?_, ?_⟩
  · rw [h2]
    exact tableLookup_tableRemove_self key _ (scan_WF c now c1 hwf hs)
  · intro b
    rw [h1, hlive]
    exact live_filter_map_eq_some (tableLookup key c.cache_table) now b
  · intro e hle hexp
    rw [h1, hlive, hle]
    simp [Option.filter, hexp]

theorem claim_C6_witness :
    (MemoryCache.mk [(1, CacheEntry.mk 10 (some 5))] none 0 none :
      MemoryCache Nat Nat).WF ∧
    (MemoryCache.mk [(1, CacheEntry.mk 10 (some 5))] none 0 none :
      MemoryCache Nat Nat).remove 1 7 =
      some (none, MemoryCache.mk ([] : List (Nat × CacheEntry Nat)) none 0 none) ∧
    (tableLookup 1 (MemoryCache.mk ([] : List (Nat × CacheEntry Nat)) none 0
        none).cache_table = none ∧
      (∀ b, (none : Option Nat) = some b ↔
        ∃ e, tableLookup 1 (MemoryCache.mk [(1, CacheEntry.mk 10 (some 5))] none 0 none :
          MemoryCache Nat Nat).cache_table = some e ∧ e.is_expired 7 = false ∧
          e.value = b) ∧
      (∀ e, tableLookup 1 (MemoryCache.mk [(1, CacheEntry.mk 10 (some 5))] none 0 none :
          MemoryCache Nat Nat).cache_table = some e → e.is_expired 7 = true →
        (none : Option Nat) = none)) :=
  ⟨by decide, by decide,
    claim_C6_remove_semantics _ 1 7 none _ (by decide) (by decide)⟩

/-- C7: a public read reports an entry as present only when that entry is
not expired at the observation instant: `contains_key` is true exactly for
keys holding a non-expired entry, and `get` returns a value only out of a
non-expired entry. -/
theorem claim_C7_reads_only_live {A B : Type} [DecidableEq A] (c : MemoryCache A B)
    (key : A) (now : Nat) :
    (c.contains_key key now = true ↔
      ∃ e, tableLookup key c.cache_table = some e ∧ e.is_expired now = false) ∧
    (∀ v, c.get key now = some v →
      ∃ e, tableLookup key c.cache_table = some e ∧ e.is_expired now = false ∧
        e.value = v) := by
  constructor
  · unfold MemoryCache.contains_key
    cases hl : tableLookup key c.cache_table with
    | none => simp [Option.filter]
    | some e => cases he : e.is_expired now <;> simp [Option.filter, he]
  · intro v hv
    unfold MemoryCache.get at hv
    exact (live_filter_map_eq_some (tableLookup key c.cache_table) now v).mp hv

theorem claim_C7_witness :
    ((MemoryCache.mk [(1, CacheEntry.mk 5 (some 10))] none 0 none :
        MemoryCache Nat Nat).contains_key 1 3 = true ↔
      ∃ e, tableLookup 1 (MemoryCache.mk [(1, CacheEntry.mk 5 (some 10))] none 0 none :
        MemoryCache Nat Nat).cache_table = some e ∧ e.is_expired 3 = false) ∧
    (∀ v, (MemoryCache.mk [(1, CacheEntry.mk 5 (some 10))] none 0 none :
        MemoryCache Nat Nat).get 1 3 = some v →
      ∃ e, tableLookup 1 (MemoryCache.mk [(1, CacheEntry.mk 5 (some 10))] none 0 none :
        MemoryCache Nat Nat).cache_table = some e ∧ e.is_expired 3 = false ∧
        e.value = v) :=
  claim_C7_reads_only_live (MemoryCache.mk [(1, CacheEntry.mk 5 (some 10))] none 0 none) 1 3

/-- C8: `contains_key` and `get` leave every field of the cache unchanged
and never run the sweep, while `insert`, `remove` and `get_or_insert` all
route through it: whenever a sweep is due, each mutating operation stamps
`last_scan_time` with the call instant, and the reads never touch it. -/
theorem claim_C8_reads_pure_mutators_sweep {A B : Type} [DecidableEq A]
    (c : MemoryCache A B) (key k : A) (v : B) (f : Unit → B) (l : Option Nat)
    (now : Nat) :
    step c (Op.containsKeyOp key) now = some c ∧
    step c (Op.getOp key) now = some c ∧
    (∀ freq, c.full_scan_frequency = some freq →
      c.last_scan_time.getD c.created_time ≤ now →
      freq ≤ now - c.last_scan_time.getD c.created_time →
      ∀ c', (step c (Op.insertOp k v l) now = some c' ∨
             step c (Op.removeOp k) now = some c' ∨
             step c (Op.getOrInsertOp k f l) now = some c') →
        c'.last_scan_time = some now) := by
  refine ⟨rfl, rfl, ?_⟩
  intro freq hf hle hge c' hstep
  have hdue := scan_due c now freq hf hle hge
  rcases hstep with h | h | h
  · obtain ⟨c1, hs, hlast, _⟩ := step_mutator_scan c _ now c' (Or.inl ⟨k, v, l, rfl⟩) h
    rw [hdue, Option.some_inj] at hs
    rw [hlast, ← hs]
  · obtain ⟨c1, hs, hlast, _⟩ := step_mutator_scan c _ now c' (Or.inr (Or.inl ⟨k, rfl⟩)) h
    rw [hdue, Option.some_inj] at hs
    rw [hlast, ← hs]
  · obtain ⟨c1, hs, hlast, _⟩ :=
      step_mutator_scan c _ now c' (Or.inr (Or.inr ⟨k, f, l, rfl⟩)) h
    rw [hdue, Option.some_inj] at hs
    rw [hlast, ← hs]

theorem claim_C8_witness :
    step (MemoryCache.mk [(1, CacheEntry.mk 5 (some 2))] (some 0) 0 none :
        MemoryCache Nat Nat) (Op.containsKeyOp 1) 4 =
      some (MemoryCache.mk [(1, CacheEntry.mk 5 (some 2))] (some 0) 0 none) ∧
    ((MemoryCache.mk [(1, CacheEntry.mk 5 (some 2))] (some 0) 0 none :
        MemoryCache Nat Nat).full_scan_frequency = some 0 ∧
      (0 : Nat) ≤ 4 ∧ (0 : Nat) ≤ 4 - 0 ∧
      step (MemoryCache.mk [(1, CacheEntry.mk 5 (some 2))] (some 0) 0 none :
          MemoryCache Nat Nat) (Op.insertOp 1 9 none) 4 =
        some (MemoryCache.mk [(1, CacheEntry.mk 9 none)] (some 0) 0 (some 4)) ∧
      (MemoryCache.mk [(1, CacheEntry.mk 9 none)] (some 0) 0 (some 4) :
        MemoryCache Nat Nat).last_scan_time = some 4) :=
  ⟨(claim_C8_reads_pure_mutators_sweep
      (MemoryCache.mk [(1, CacheEntry.mk 5 (some 2))] (some 0) 0 none) 1 1 9
      (fun _ => 9) none 4).1,
    rfl, by decide, by decide, by decide,
    (claim_C8_reads_pure_mutators_sweep
        (MemoryCache.mk [(1, CacheEntry.mk 5 (some 2))] (some 0) 0 none) 1 1 9
        (fun _ => 9) none 4).2.2 0 rfl (by decide) (by decide)
      (MemoryCache.mk [(1, CacheEntry.mk 9 none)] (some 0) 0 (some 4))
      (Or.inl (by decide))⟩

/-- C9: along any non-panicking sequence of operations, `last_scan_time`,
once set, never decreases; and whenever a single step changes it, the new
value is exactly the step's current time (so the update is ≤ "now"), and
the previous reference point was no later than that time. -/
theorem claim_C9_last_scan_monotone {A B : Type} [DecidableEq A] :
    (∀ (ops : List (Op A B × Nat)) (c c' : MemoryCache A B),
      run c ops = some c' → ∀ t, c.last_scan_time = some t →
      ∃ t', c'.last_scan_time = some t' ∧ t ≤ t') ∧
    (∀ (c : MemoryCache A B) (op : Op A B) (now : Nat) (c' : MemoryCache A B),
      step c op now = some c' → c'.last_scan_time ≠ c.last_scan_time →
      c'.last_scan_time = some now ∧
      c.last_scan_time.getD c.created_time ≤ now) := by
  constructor
  · intro ops c c' h t ht
    exact run_last_scan_mono ops c c' h t ht
  · intro c op now c' h hne
    rcases step_last_scan c op now c' h with heq | hst
    · exact absurd heq hne
    · exact hst

theorem claim_C9_witness :
    run (MemoryCache.mk ([] : List (Nat × CacheEntry Nat)) (some 0) 0 (some 3))
      [(Op.insertOp 1 2 none, 9)] =
      some (MemoryCache.mk [(1, CacheEntry.mk 2 none)] (some 0) 0 (some 9)) ∧
    (MemoryCache.mk ([] : List (Nat × CacheEntry Nat)) (some 0) 0
      (some 3)).last_scan_time = some 3 ∧
    (∃ t', (MemoryCache.mk [(1, CacheEntry.mk 2 none)] (some 0) 0 (some 9) :
      MemoryCache Nat Nat).last_scan_time = some t' ∧ 3 ≤ t') ∧
    step (MemoryCache.mk ([] : List (Nat × CacheEntry Nat)) (some 0) 0 (some 3))
      (Op.insertOp 1 2 none) 9 =
      some (MemoryCache.mk [(1, CacheEntry.mk 2 none)] (some 0) 0 (some 9)) ∧
    ((MemoryCache.mk [(1, CacheEntry.mk 2 none)] (some 0) 0 (some 9) :
        MemoryCache Nat Nat).last_scan_time ≠
      (MemoryCache.mk ([] : List (Nat × CacheEntry Nat)) (some 0) 0
        (some 3)).last_scan_time) ∧
    ((MemoryCache.mk [(1, CacheEntry.mk 2 none)] (some 0) 0 (some 9) :
        MemoryCache Nat Nat).last_scan_time = some 9 ∧
      (MemoryCache.mk ([] : List (Nat × CacheEntry Nat)) (some 0) 0
        (some 3)).last_scan_time.getD 0 ≤ 9) :=
  ⟨by decide, rfl,
    claim_C9_last_scan_monotone.1 [(Op.insertOp 1 2 none, 9)]
      (MemoryCache.mk ([] : List (Nat × CacheEntry Nat)) (some 0) 0 (some 3))
      (MemoryCache.mk [(1, CacheEntry.mk 2 none)] (some 0) 0 (some 9))
      (by decide) 3 rfl,
    by decide, by decide,
    claim_C9_last_scan_monotone.2
      (MemoryCache.mk ([] : List (Nat × CacheEntry Nat)) (some 0) 0 (some 3))
      (Op.insertOp 1 2 none) 9
      (MemoryCache.mk [(1, CacheEntry.mk 2 none)] (some 0) 0 (some 9))
      (by decide) (by decide)⟩

/-- C10: when `get_or_insert` meets a live entry for the key, it returns the
stored value, calls the factory zero times, and the resulting state is
exactly the post-sweep state: the entry keeps its value and its original
expiration, and the `lifetime` argument (arbitrary here) has no effect. -/
theorem claim_C10_live_entry_untouched {A B : Type} [DecidableEq A]
    (c : MemoryCache A B) (key : A) (factory : Unit → B) (l : Option Nat)
    (now : Nat) (c1 : MemoryCache A B) (e : CacheEntry B) (hwf : c.WF)
    (hs : c.try_full_scan_expired_items now = some c1)
    (hl : tableLookup key c.cache_table = some e)
    (he : e.is_expired now = false) :
    c.get_or_insert key factory l now = some (e.value, c1, 0) := by
  have hl1 : tableLookup key c1.cache_table = some e := by
    rcases scan_lookup c now c1 hwf hs key with heq | heq
    · rw [heq, hl]
    · rw [heq, hl]
      simp [Option.filter, he]
  simp [MemoryCache.get_or_insert, hs, hl1, he]

theorem claim_C10_witness :
    (MemoryCache.mk [(1, CacheEntry.mk 5 (some 10))] none 0 none :
      MemoryCache Nat Nat).WF ∧
    (MemoryCache.mk [(1, CacheEntry.mk 5 (some 10))] none 0 none :
      MemoryCache Nat Nat).try_full_scan_expired_items 3 =
      some (MemoryCache.mk [(1, CacheEntry.mk 5 (some 10))] none 0 none) ∧
    tableLookup 1 (MemoryCache.mk [(1, CacheEntry.mk 5 (some 10))] none 0 none :
      MemoryCache Nat Nat).cache_table = some (CacheEntry.mk 5 (some 10)) ∧
    (CacheEntry.mk 5 (some 10) : CacheEntry Nat).is_expired 3 = false ∧
    (MemoryCache.mk [(1, CacheEntry.mk 5 (some 10))] none 0 none :
      MemoryCache Nat Nat).get_or_insert 1 (fun _ => 42) (some 77) 3 =
      some ((CacheEntry.mk 5 (some 10) : CacheEntry Nat).value,
        MemoryCache.mk [(1, CacheEntry.mk 5 (some 10))] none 0 none, 0) :=
  ⟨by decide, by decide, by decide, by decide,
    claim_C10_live_entry_untouched
      (MemoryCache.mk [(1, CacheEntry.mk 5 (some 10))] none 0 none) 1 (fun _ => 42)
      (some 77) 3 (MemoryCache.mk [(1, CacheEntry.mk 5 (some 10))] none 0 none)
      (CacheEntry.mk 5 (some 10)) (by decide) (by decide) (by decide) (by decide)⟩

/-- C3: whenever the clock reading is not earlier than the reference point,
the source sweep returns exactly the state described by the spec's wording
(`sweepSpec`); when it fires, the retained entries are exactly the
non-expired ones and `last_scan_time` becomes `now`; when the frequency is
not reached, or none is configured, the state is unchanged. -/
theorem claim_C3_sweep_refines_spec {A B : Type} (c : MemoryCache A B) (now : Nat)
    (hle : c.last_scan_time.getD c.created_time ≤ now) :
    c.try_full_scan_expired_items now = some (sweepSpec c now) ∧
    (∀ freq, c.full_scan_frequency = some freq →
      freq ≤ now - c.last_scan_time.getD c.created_time →
      (∀ kv, kv ∈ (sweepSpec c now).cache_table ↔
        kv ∈ c.cache_table ∧ kv.2.is_expired now = false) ∧
      (sweepSpec c now).last_scan_time = some now) ∧
    (∀ freq, c.full_scan_frequency = some freq →
      ¬ freq ≤ now - c.last_scan_time.getD c.created_time →
      sweepSpec c now = c) ∧
    (c.full_scan_frequency = none → sweepSpec c now = c) := by
  refine ⟨?_, ?_, ?_, ?_⟩
  · cases hf : c.full_scan_frequency with
    | none => simp [MemoryCache.try_full_scan_expired_items, sweepSpec, hf]
    | some freq =>
      by_cases hge : freq ≤ now - c.last_scan_time.getD c.created_time
      · simp [MemoryCache.try_full_scan_expired_items, durationSince, sweepSpec, hf,
          if_pos hle, if_pos hge]
      · simp [MemoryCache.try_full_scan_expired_items, durationSince, sweepSpec, hf,
          if_pos hle, if_neg hge]
  · intro freq hf hge
    constructor
    · intro kv
      simp [sweepSpec, hf, if_pos hge, List.mem_filter]
    · simp [sweepSpec, hf, if_pos hge]
  · intro freq hf hge
    simp [sweepSpec, hf, if_neg hge]
  · intro hf
    simp [sweepSpec, hf]

theorem claim_C3_witness :
    (MemoryCache.mk [(1, CacheEntry.mk 5 (some 2)), (2, CacheEntry.mk 6 none)]
      (some 1) 0 none : MemoryCache Nat Nat).last_scan_time.getD
      (MemoryCache.mk [(1, CacheEntry.mk 5 (some 2)), (2, CacheEntry.mk 6 none)]
        (some 1) 0 none : MemoryCache Nat Nat).created_time ≤ 4 ∧
    (MemoryCache.mk [(1, CacheEntry.mk 5 (some 2)), (2, CacheEntry.mk 6 none)]
      (some 1) 0 none : MemoryCache Nat Nat).try_full_scan_expired_items 4 =
      some (sweepSpec (MemoryCache.mk
        [(1, CacheEntry.mk 5 (some 2)), (2, CacheEntry.mk 6 none)] (some 1) 0 none) 4) ∧
    sweepSpec (MemoryCache.mk
        [(1, CacheEntry.mk 5 (some 2)), (2, CacheEntry.mk 6 none)] (some 1) 0 none :
        MemoryCache Nat Nat) 4 =
      MemoryCache.mk [(2, CacheEntry.mk 6 none)] (some 1) 0 (some 4) :=
  ⟨by decide,
    (claim_C3_sweep_refines_spec (MemoryCache.mk
      [(1, CacheEntry.mk 5 (some 2)), (2, CacheEntry.mk 6 none)] (some 1) 0 none) 4
      (by decide)).1,
    by decide⟩

/-- C4: for a non-panicking `get_or_insert` on a well-formed cache: when the
key held a live entry at the call instant the factory is called zero times
and the stored value is returned; when the key was absent or its entry was
expired, the factory is called exactly once and a fresh entry with the given
ttl is installed and returned. -/
theorem claim_C4_factory_calls {A B : Type} [DecidableEq A] (c : MemoryCache A B)
    (key : A) (factory : Unit → B) (l : Option Nat) (now : Nat) (v : B)
    (c' : MemoryCache A B) (calls : Nat) (hwf : c.WF)
    (h : c.get_or_insert key factory l now = some (v, c', calls)) :
    ((∃ e, tableLookup key c.cache_table = some e ∧ e.is_expired now = false) →
      calls = 0 ∧
      ∃ e, tableLookup key c.cache_table = some e ∧ e.is_expired now = false ∧
        v = e.value) ∧
    ((tableLookup key c.cache_table = none ∨
      ∃ e, tableLookup key c.cache_table = some e ∧ e.is_expired now = true) →
      calls = 1 ∧ v = factory () ∧
      tableLookup key c'.cache_table = some (CacheEntry.new (factory ()) l now)) := by
  cases hs : c.try_full_scan_expired_items now with
  | none => simp [MemoryCache.get_or_insert, hs] at h
  | some c1 =>
    simp only [MemoryCache.get_or_insert, hs] at h
    constructor
    · rintro ⟨e, hle, hee⟩
      have hl1 : tableLookup key c1.cache_table = some e := by
        rcases scan_lookup c now c1 hwf hs key with heq | heq
        · rw [heq, hle]
        · rw [heq, hle]
          simp [Option.filter, hee]
      simp only [hl1, hee, Bool.false_eq_true, if_false, Option.some_inj,
        Prod.mk.injEq] at h
      obtain ⟨hv, hc, hcalls⟩ := h
      exact ⟨hcalls.symm, e, hle, hee, hv.symm⟩
    · rintro (hnone | ⟨e, hle, hee⟩)
      · have hl1 : tableLookup key c1.cache_table = none := by
          rcases scan_lookup c now c1 hwf hs key with heq | heq
          · rw [heq, hnone]
          · rw [heq, hnone]
            rfl
        simp only [hl1, Option.some_inj, Prod.mk.injEq] at h
        obtain ⟨hv, hc, hcalls⟩ := h
        refine ⟨hcalls.symm, hv.symm, ?_⟩
        rw [← hc]
        exact tableLookup_tableInsert_self key _ _
      · rcases scan_lookup c now c1 hwf hs key with heq | heq
        · rw [hle] at heq
          simp only [heq, hee, eq_self_iff_true, if_true, Option.some_inj,
            Prod.mk.injEq] at h
          obtain ⟨hv, hc, hcalls⟩ := h
          refine ⟨hcalls.symm, hv.symm, ?_⟩
          rw [← hc]
          exact tableLookup_tableInsert_self key _ _
        · have hl1 : tableLookup key c1.cache_table = none := by
            rw [heq, hle]
            simp [Option.filter, hee]
          simp only [hl1, Option.some_inj, Prod.mk.injEq] at h
          obtain ⟨hv, hc, hcalls⟩ := h
          refine ⟨hcalls.symm, hv.symm, ?_⟩
          rw [← hc]
          exact tableLookup_tableInsert_self key _ _

theorem claim_C4_witness :
    (MemoryCache.mk [(1, CacheEntry.mk 5 (some 10))] none 0 none :
      MemoryCache Nat Nat).WF ∧
    (MemoryCache.mk [(1, CacheEntry.mk 5 (some 10))] none 0 none :
      MemoryCache Nat Nat).get_or_insert 1 (fun _ => 42) none 3 =
      some (5, MemoryCache.mk [(1, CacheEntry.mk 5 (some 10))] none 0 none, 0) ∧
    (((∃ e, tableLookup 1 (MemoryCache.mk [(1, CacheEntry.mk 5 (some 10))] none 0
          none : MemoryCache Nat Nat).cache_table = some e ∧
        e.is_expired 3 = false) →
      (0 : Nat) = 0 ∧
      ∃ e, tableLookup 1 (MemoryCache.mk [(1, CacheEntry.mk 5 (some 10))] none 0
          none : MemoryCache Nat Nat).cache_table = some e ∧
        e.is_expired 3 = false ∧ (5 : Nat) = e.value) ∧
    ((tableLookup 1 (MemoryCache.mk [(1, CacheEntry.mk 5 (some 10))] none 0 none :
          MemoryCache Nat Nat).cache_table = none ∨
      ∃ e, tableLookup 1 (MemoryCache.mk [(1, CacheEntry.mk 5 (some 10))] none 0
          none : MemoryCache Nat Nat).cache_table = some e ∧
        e.is_expired 3 = true) →
      (0 : Nat) = 1 ∧ (5 : Nat) = 42 ∧
      tableLookup 1 (MemoryCache.mk [(1, CacheEntry.mk 5 (some 10))] none 0 none :
        MemoryCache Nat Nat).cache_table = some (CacheEntry.new 42 none 3))) :=
  ⟨by decide, by decide,
    claim_C4_factory_calls (MemoryCache.mk [(1, CacheEntry.mk 5 (some 10))] none 0
        none) 1 (fun _ => 42) none 3 5
      (MemoryCache.mk [(1, CacheEntry.mk 5 (some 10))] none 0 none) 0
      (by decide) (by decide)⟩

end MemCacheModel
